import Mathlib

/-!
Verification of the pdf-prepender core against its specification.

Shallow embedding of the program's core modules:
  * `pdf_prepender/core/link_manager.py`   — link registry and offset resolution
  * `pdf_prepender/core/page_generator.py` — content composition and anchor tracking
  * `pdf_prepender/core/pdf_merger.py`     — page concatenation and named destinations
  * `pdf_prepender/core/link_annotator.py` — link binding with text-search fallback
  * `pdf_prepender/parsers/text_formatter.py` — marker-to-span text formatting

Python integers are modelled as `Int` (unbounded), floats as `ℚ` (the claims under
study concern the algebraic structure of the computations, not rounding), strings as
`String`/`List Char`, and mutation as explicit state passing.
-/

namespace PdfPrepender

/-! ### link_manager.py -/

/-- `LinkInfo` dataclass: a link to a page in the original document. -/
structure LinkInfo where
  original_page : Int
  adjusted_page : Option Int := none
deriving DecidableEq, Repr

/-- `LinkInfo.destination_name`: `page = adjusted_page if adjusted_page is not None
else original_page; return f"page_{page}"`. -/
def LinkInfo.destination_name (l : LinkInfo) : String :=
  let page : Int :=
    match l.adjusted_page with
    | some p => p
    | none => l.original_page
  "page_" ++ toString page

/-- `LinkManager` dataclass: offset count plus the `_links` registry. -/
structure LinkManager where
  prepended_page_count : Int := 0
  links : List LinkInfo := []
deriving DecidableEq, Repr

/-- `LinkManager.register_link`: appends a fresh unresolved record and returns it. -/
def LinkManager.register_link (m : LinkManager) (original_page : Int) :
    LinkManager × LinkInfo :=
  let link : LinkInfo := { original_page := original_page }
  ({ m with links := m.links ++ [link] }, link)

/-- `LinkManager._update_all_links`: recomputes `adjusted_page` for every record. -/
def LinkManager.update_all_links (m : LinkManager) : LinkManager :=
  { m with
    links := m.links.map fun l =>
      { l with adjusted_page := some (l.original_page + m.prepended_page_count) } }

/-- `LinkManager.set_prepended_page_count`: stores the count and updates all links. -/
def LinkManager.set_prepended_page_count (m : LinkManager) (count : Int) : LinkManager :=
  LinkManager.update_all_links { m with prepended_page_count := count }

/-- `LinkManager.get_adjusted_page`: `original_page + prepended_page_count`. -/
def LinkManager.get_adjusted_page (m : LinkManager) (original_page : Int) : Int :=
  original_page + m.prepended_page_count

/-- `LinkManager.get_destination_name`: `f"page_{adjusted}"`. -/
def LinkManager.get_destination_name (m : LinkManager) (original_page : Int) : String :=
  "page_" ++ toString (m.get_adjusted_page original_page)

/-- `LinkManager.generate_all_destinations`: `[f"page_{i}" for i in range(1, total+1)]`. -/
def LinkManager.generate_all_destinations (total_pages : Nat) : List String :=
  (List.range total_pages).map fun i => "page_" ++ toString (i + 1)

/-! ### Claims C1, C4, C10 -/

/-- C1: after `set_prepended_page_count c` has been called, `get_adjusted_page p`
returns `p + c` for every original page `p` (this holds even when no link has been
registered), and every previously registered `LinkInfo` record has
`adjusted_page = original_page + c`. -/
theorem set_prepended_page_count_spec (m : LinkManager) (c p : Int) :
    (m.set_prepended_page_count c).get_adjusted_page p = p + c ∧
    ∀ l ∈ (m.set_prepended_page_count c).links,
      l.adjusted_page = some (l.original_page + c) := by
  constructor
  · rfl
  · intro l hl
    simp only [LinkManager.set_prepended_page_count, LinkManager.update_all_links,
      List.mem_map] at hl
    obtain ⟨a, _, rfl⟩ := hl
    rfl

/-- Witness for C1 at a concrete manager with one registered link. -/
theorem set_prepended_page_count_spec_witness :
    (({ links := [{ original_page := 3 }] } :
        LinkManager).set_prepended_page_count 2).get_adjusted_page 5 = 5 + 2 ∧
    (LinkInfo.mk 3 (some 5)).adjusted_page =
      some ((LinkInfo.mk 3 (some 5)).original_page + 2) := by
  refine ⟨(set_prepended_page_count_spec _ 2 5).1, ?_⟩
  exact (set_prepended_page_count_spec
    ({ links := [{ original_page := 3 }] } : LinkManager) 2 5).2
    (LinkInfo.mk 3 (some 5)) (by decide)

/-- C4: re-invoking `set_prepended_page_count` with a different count recomputes all
records consistently: after counts `a` then `b`, every registered record's
`adjusted_page` equals `original_page + b` (the earlier count leaves no residue), and
calling `set_prepended_page_count b` twice leaves the same state as calling it once. -/
theorem set_prepended_page_count_reinvoke (m : LinkManager) (a b : Int) :
    (∀ l ∈ ((m.set_prepended_page_count a).set_prepended_page_count b).links,
        l.adjusted_page = some (l.original_page + b)) ∧
    (m.set_prepended_page_count b).set_prepended_page_count b =
      m.set_prepended_page_count b := by
  constructor
  · intro l hl
    simp only [LinkManager.set_prepended_page_count, LinkManager.update_all_links,
      List.map_map, List.mem_map] at hl
    obtain ⟨x, _, rfl⟩ := hl
    rfl
  · simp only [LinkManager.set_prepended_page_count, LinkManager.update_all_links,
      List.map_map]
    rfl

/-- Witness for C4 at a concrete manager with one registered link. -/
theorem set_prepended_page_count_reinvoke_witness :
    (LinkInfo.mk 4 (some 7)).adjusted_page =
      some ((LinkInfo.mk 4 (some 7)).original_page + 3) ∧
    (({ links := [{ original_page := 4 }] } :
        LinkManager).set_prepended_page_count 3).set_prepended_page_count 3 =
      ({ links := [{ original_page := 4 }] } :
        LinkManager).set_prepended_page_count 3 := by
  refine ⟨?_, (set_prepended_page_count_reinvoke
    ({ links := [{ original_page := 4 }] } : LinkManager) 1 3).2⟩
  exact (set_prepended_page_count_reinvoke
    ({ links := [{ original_page := 4 }] } : LinkManager) 1 3).1
    (LinkInfo.mk 4 (some 7)) (by decide)

/-- C10: `destination_name` is defined even while `adjusted_page` is unresolved
(`none`), returning `"page_"` followed by the original page number; once
`adjusted_page` is set it returns `"page_"` followed by the adjusted page number. -/
theorem destination_name_spec (l : LinkInfo) :
    (l.adjusted_page = none →
      l.destination_name = "page_" ++ toString l.original_page) ∧
    ∀ a : Int, l.adjusted_page = some a →
      l.destination_name = "page_" ++ toString a := by
  constructor
  · intro h
    simp [LinkInfo.destination_name, h]
  · intro a h
    simp [LinkInfo.destination_name, h]

/-- Witness for C10 at concrete unresolved and resolved records. -/
theorem destination_name_spec_witness :
    (LinkInfo.mk 7 none).destination_name = "page_" ++ toString (7 : Int) ∧
    (LinkInfo.mk 7 (some 9)).destination_name = "page_" ++ toString (9 : Int) :=
  ⟨(destination_name_spec (LinkInfo.mk 7 none)).1 rfl,
   (destination_name_spec (LinkInfo.mk 7 (some 9))).2 9 rfl⟩

/-! ### parsers/text_formatter.py

The formatter's regex patterns are `re.escape(marker) + "(.+?)" + re.escape(marker)`,
i.e. the literal marker, a non-greedy non-empty run of characters matched by `.`
(any character except a newline), and the literal marker again.  `finditer` scans
left to right, at each position taking the shortest content of length at least one,
and resumes after the end of a match.  The functions below mirror that behaviour. -/

/-- `html.escape(text, quote=False)` on one character: `&`, `<`, `>` are replaced by
their entity references, every other character is kept. -/
def escapeChar (c : Char) : List Char :=
  if c = '&' then "&amp;".data
  else if c = '<' then "&lt;".data
  else if c = '>' then "&gt;".data
  else [c]

/-- `TextFormatter.escape_xml` on a character list. -/
def escapeXml (s : List Char) : List Char :=
  s.flatMap escapeChar

/-- Backtracking of the non-greedy `(.+?)` before a closing marker: the least
`k ≥ 1` such that the first `k` characters contain no newline and the marker follows
them; `none` when no closing marker is reachable. -/
def findClose (m : List Char) : List Char → Option Nat
  | [] => none
  | c :: rest =>
    if c = '\n' then none
    else if m.isPrefixOf rest then some 1
    else (findClose m rest).map (· + 1)

/-- One `finditer` scan for the pattern `marker (.+?) marker`: when the marker with a
reachable closing partner matches at the current position, the span is recorded and
scanning resumes after it; otherwise scanning advances one character.  `fuel` bounds
the number of steps; every step consumes at least one character, so the length of the
remaining input suffices. -/
def findMatchesAux (m : List Char) : Nat → List Char → Nat → List (Nat × Nat)
  | 0, _, _ => []
  | _, [], _ => []
  | fuel + 1, s@(_ :: rest), pos =>
    if m.isPrefixOf s then
      match findClose m (s.drop m.length) with
      | some k =>
        let len := m.length + k + m.length
        (pos, pos + len) :: findMatchesAux m fuel (s.drop len) (pos + len)
      | none => findMatchesAux m fuel rest (pos + 1)
    else findMatchesAux m fuel rest (pos + 1)

/-- All matches `(start, stop)` of `marker (.+?) marker` in `s`, leftmost first. -/
def findMatches (m s : List Char) : List (Nat × Nat) :=
  findMatchesAux m s.length s 0

/-- Replace every match `(a, b)` of a marker pattern with
`before ++ f content ++ after` where `content` is the matched group without its
markers.  The Python code performs the replacements by slicing in reversed match
order; rebuilding left to right is equivalent because the spans are disjoint and
ascending. -/
def replaceMatchesWith (mlen : Nat) (before after : List Char)
    (f : List Char → List Char) (s : List Char) :
    List (Nat × Nat) → Nat → List Char
  | [], cur => s.drop cur
  | (a, b) :: ms, cur =>
    (s.drop cur).take (a - cur) ++ before
      ++ f ((s.drop (a + mlen)).take (b - a - 2 * mlen)) ++ after
      ++ replaceMatchesWith mlen before after f s ms b

/-- The `"\x00BOLD\x00"` placeholder. -/
def boldPlaceholder : List Char :=
  "\x00BOLD\x00".data

/-- The `"\x00ITALIC\x00"` placeholder. -/
def italicPlaceholder : List Char :=
  "\x00ITALIC\x00".data

/-- The `re.split`-then-escape loop of `format_text`: walk the placeholder-laden
string; each placeholder occurrence is kept and toggles its flag, and text outside
both flags is XML-escaped (text inside was escaped when the placeholder was
inserted).  `fuel` bounds the steps as in `findMatchesAux`. -/
def splitToggleEscape (bp ip : List Char) : Nat → Bool → Bool → List Char → List Char
  | 0, _, _, s => s
  | fuel + 1, inBold, inItalic, s =>
    match s with
    | [] => []
    | c :: rest =>
      if bp.isPrefixOf s then
        bp ++ splitToggleEscape bp ip fuel (!inBold) inItalic (s.drop bp.length)
      else if ip.isPrefixOf s then
        ip ++ splitToggleEscape bp ip fuel inBold (!inItalic) (s.drop ip.length)
      else
        (if inBold || inItalic then [c] else escapeChar c)
          ++ splitToggleEscape bp ip fuel inBold inItalic rest

/-- The alternating single-occurrence `str.replace` loop of `format_text`:
occurrences of the placeholder are replaced left to right with the opening and
closing tag alternately, starting with the opening tag. -/
def replaceAlternate (ph openTag closeTag : List Char) :
    Nat → Bool → List Char → List Char
  | 0, _, s => s
  | fuel + 1, isClose, s =>
    match s with
    | [] => []
    | c :: rest =>
      if ph.isPrefixOf s then
        (if isClose then closeTag else openTag)
          ++ replaceAlternate ph openTag closeTag fuel (!isClose) (s.drop ph.length)
      else
        c :: replaceAlternate ph openTag closeTag fuel isClose rest

/-- `str.replace(ph, "")`: remove every occurrence of the placeholder. -/
def removeAll (ph : List Char) : Nat → List Char → List Char
  | 0, s => s
  | fuel + 1, s =>
    match s with
    | [] => []
    | c :: rest =>
      if ph.isPrefixOf s then removeAll ph fuel (s.drop ph.length)
      else c :: removeAll ph fuel rest

/-- `TextFormatter`: holds the configured markers (defaults `"**"` and `"_"`). -/
structure TextFormatter where
  bold_marker : String := "**"
  italic_marker : String := "_"

/-- `TextFormatter.escape_xml`. -/
def TextFormatter.escape_xml (_tf : TextFormatter) (text : String) : String :=
  ⟨escapeXml text.data⟩

/-- `TextFormatter.format_text`: convert marker pairs to `<b>`/`<i>` tags.  With
`escape_first` the marker contents are escaped and protected by placeholders, the
remaining text is escaped, and the placeholders are converted to tags (or dropped
when the corresponding `apply_*` flag is off); without it the marker patterns are
substituted by tags directly. -/
def TextFormatter.format_text (tf : TextFormatter) (text : String)
    (escape_first apply_bold apply_italic : Bool) : String :=
  let bm := tf.bold_marker.data
  let im := tf.italic_marker.data
  let s := text.data
  if escape_first then
    let r1 := replaceMatchesWith bm.length boldPlaceholder boldPlaceholder
      escapeXml s (findMatches bm s) 0
    let r2 := replaceMatchesWith im.length italicPlaceholder italicPlaceholder
      escapeXml r1 (findMatches im r1) 0
    let r3 := splitToggleEscape boldPlaceholder italicPlaceholder r2.length false false r2
    let r4 :=
      if apply_bold then
        replaceAlternate boldPlaceholder "<b>".data "</b>".data r3.length false r3
      else removeAll boldPlaceholder r3.length r3
    let r5 :=
      if apply_italic then
        replaceAlternate italicPlaceholder "<i>".data "</i>".data r4.length false r4
      else removeAll italicPlaceholder r4.length r4
    ⟨r5⟩
  else
    let r1 :=
      if apply_bold then
        replaceMatchesWith bm.length "<b>".data "</b>".data id s (findMatches bm s) 0
      else s
    let r2 :=
      if apply_italic then
        replaceMatchesWith im.length "<i>".data "</i>".data id r1 (findMatches im r1) 0
      else r1
    ⟨r2⟩

/-- `TextFormatter.apply_style`: wrap the whole text in `<b>`/`<i>` tags. -/
def TextFormatter.apply_style (_tf : TextFormatter) (text : String)
    (bold italic : Bool) : String :=
  let r := if bold then "<b>" ++ text ++ "</b>" else text
  if italic then "<i>" ++ r ++ "</i>" else r

/-- Number of positions of `s` at which `pat` occurs as a substring. -/
def countSub (pat s : List Char) : Nat :=
  (List.range (s.length + 1)).countP fun i => pat.isPrefixOf (s.drop i)

/-! ### Claim C8 -/

/-- C8: with the default markers (bold `"**"`, italic `"_"`), formatting the text
`"**Bold** and _italic_"` yields output containing exactly one bold region and
exactly one italic region, with zero literal marker characters remaining outside
those regions (indeed none anywhere in the output). -/
theorem format_text_scenario_d :
    ({} : TextFormatter).format_text "**Bold** and _italic_" true true true
        = "<b>Bold</b> and <i>italic</i>" ∧
    countSub "<b>".data
        (({} : TextFormatter).format_text "**Bold** and _italic_" true true true).data
        = 1 ∧
    countSub "</b>".data
        (({} : TextFormatter).format_text "**Bold** and _italic_" true true true).data
        = 1 ∧
    countSub "<i>".data
        (({} : TextFormatter).format_text "**Bold** and _italic_" true true true).data
        = 1 ∧
    countSub "</i>".data
        (({} : TextFormatter).format_text "**Bold** and _italic_" true true true).data
        = 1 ∧
    (({} : TextFormatter).format_text "**Bold** and _italic_" true true true).data.count
        '*' = 0 ∧
    (({} : TextFormatter).format_text "**Bold** and _italic_" true true true).data.count
        '_' = 0 := by
  decide

/-! ### core/page_generator.py

Layout geometry (positions, widths, page numbers reported by the ReportLab canvas)
is external to the program: it enters the model as a `DrawGeom` value.  Paragraph
styles only affect that external geometry, so they are not part of the model. -/

namespace PageGen

/-- A content item of a bullet: plain text or a `LinkableItem{text, targetPage}`. -/
inductive ContentItem where
  | plain (text : String)
  | linkItem (text : String) (targetPage : Int)
deriving DecidableEq, Repr

/-- `OverflowBehavior` enum from the schema. -/
inductive OverflowBehavior where
  | noWrap
  | wrap
  | wrapWithPageBreak
deriving DecidableEq, Repr

/-- Data of a `BulletPoint` / `IndentedBulletPoint` element. -/
structure BulletData where
  label : String
  content : List ContentItem
  overflow_behavior : OverflowBehavior := .wrap
deriving DecidableEq, Repr

/-- Content elements of a page (discriminated union from the schema). -/
inductive ContentElement where
  | sectionHeading (text : String) (bold italic : Bool)
  | sectionSubheading (text : String) (bold italic : Bool)
  | bulletPoint (bp : BulletData)
  | indentedBulletPoint (bp : BulletData)
deriving DecidableEq, Repr

/-- `page_generator.LinkInfo`: a link's character range within a composed line. -/
structure LinkInfo where
  text : String
  target_page : Int
  char_start : Nat
  char_end : Nat
deriving DecidableEq, Repr

/-- `page_generator.LinkPosition`: an anchor position recorded at draw time. -/
structure LinkPosition where
  page_index : Int
  target_page : Int
  link_text : String
  x : ℚ
  y : ℚ
  width : ℚ
  height : ℚ
deriving DecidableEq, Repr

/-- The flowables the generator can emit; only the text and link-tracking payload is
modelled (styles live in the external layout engine). -/
inductive Flowable where
  | para (text : String)
  | tracking (text : String) (links : List LinkInfo) (plain_text : String)
  | keepTogether (inner : Flowable)
  | spacer
  | pageBreak
deriving DecidableEq, Repr

/-- `PageGenerator._build_content_items`, with the running index replaced by the
`isFirst` flag (Python only uses `i > 0` to decide the separator) and `pos` the
running `current_pos`.  Returns `(formatted string, links, plain text)`. -/
def buildContentItemsAux (tf : TextFormatter) (lm : LinkManager) :
    List ContentItem → Bool → Nat → String × List LinkInfo × String
  | [], _, _ => ("", [], "")
  | item :: rest, isFirst, pos =>
    let sep : String := if isFirst then "" else ", "
    let pos := pos + sep.length
    match item with
    | .linkItem text targetPage =>
      let adjusted_page := lm.get_adjusted_page targetPage
      let escaped_text := tf.escape_xml text
      let fPart := "<font color=\"blue\"><u>" ++ escaped_text ++ "</u></font>"
      let li : LinkInfo :=
        { text := text, target_page := adjusted_page,
          char_start := pos, char_end := pos + text.length }
      let r := buildContentItemsAux tf lm rest false (pos + text.length)
      (sep ++ fPart ++ r.1, li :: r.2.1, sep ++ text ++ r.2.2)
    | .plain text =>
      let fPart := tf.format_text text true true true
      let r := buildContentItemsAux tf lm rest false (pos + text.length)
      (sep ++ fPart ++ r.1, r.2.1, sep ++ text ++ r.2.2)

/-- `PageGenerator._build_content_items`. -/
def build_content_items (tf : TextFormatter) (lm : LinkManager)
    (content : List ContentItem) : String × List LinkInfo × String :=
  buildContentItemsAux tf lm content true 0

/-- Length of the `[^>]+>` remainder of an XML tag: characters up to and including
the first `>`, given at least one non-`>` character was already consumed. -/
def tagClose : List Char → Option Nat
  | [] => none
  | c :: rest =>
    if c = '>' then some 1
    else (tagClose rest).map (· + 1)

/-- Length of a `[^>]+>` match at the start of the input (the part after the
opening `<`): at least one non-`>` character followed by the first `>`. -/
def tagEnd : List Char → Option Nat
  | [] => none
  | c :: rest =>
    if c = '>' then none
    else (tagClose rest).map (· + 1)

/-- `re.sub(r"<[^>]+>", "", s)`: remove every XML tag.  `fuel` bounds the steps;
every step consumes at least one character. -/
def removeXmlTags : Nat → List Char → List Char
  | 0, s => s
  | fuel + 1, s =>
    match s with
    | [] => []
    | c :: rest =>
      if c = '<' then
        match tagEnd rest with
        | some k => removeXmlTags fuel (rest.drop k)
        | none => c :: removeXmlTags fuel rest
      else c :: removeXmlTags fuel rest

/-- `PageGenerator._strip_xml_tags`: format the text, then remove all XML tags. -/
def strip_xml_tags (tf : TextFormatter) (text : String) : String :=
  let result := tf.format_text text true true true
  ⟨removeXmlTags result.data.length result.data⟩

/-- The geometry the ReportLab canvas reports for one drawn paragraph:
`canv.getPageNumber()` (1-based), `canv.absolutePosition(0, 0)`, and the
width/height set by `wrap`. -/
structure DrawGeom where
  pageNumber : Nat
  x : ℚ
  y : ℚ
  width : ℚ
  height : ℚ

/-- `LinkTrackingParagraph.draw`: the anchor positions appended for one tracked
paragraph having the given canvas geometry. -/
def draw (g : DrawGeom) (links : List LinkInfo) (plain_text : String) :
    List LinkPosition :=
  if links.isEmpty then []
  else
    let page_idx : Int := (g.pageNumber : Int) - 1
    let plain_len : Nat := if plain_text.length = 0 then 1 else plain_text.length
    let avg_char_width : ℚ := g.width / (max plain_len 1 : ℚ)
    links.map fun link_info =>
      { page_index := page_idx
        target_page := link_info.target_page
        link_text := link_info.text
        x := g.x + (link_info.char_start : ℚ) * avg_char_width
        y := g.y
        width := max (((link_info.char_end : ℚ) - (link_info.char_start : ℚ))
          * avg_char_width) 20
        height := g.height }

/-- `PageGenerator._build_bullet_point` (the `indented` flag only selects a style,
which lives outside the model). -/
def build_bullet_point (tf : TextFormatter) (lm : LinkManager)
    (element : BulletData) : List Flowable :=
  let label := tf.format_text element.label true true true
  let plain_label := strip_xml_tags tf element.label
  let r := build_content_items tf lm element.content
  let content_str := r.1
  let links := r.2.1
  let plain_content := r.2.2
  let bullet_text := "• " ++ label ++ " " ++ content_str
  let bullet_pre := "• " ++ plain_label ++ " "
  let plain_text := bullet_pre ++ plain_content
  let prefix_len := bullet_pre.length
  let adjusted_links := links.map fun link =>
    { link with
      char_start := link.char_start + prefix_len
      char_end := link.char_end + prefix_len }
  let flowable : Flowable :=
    if adjusted_links.isEmpty then .para bullet_text
    else .tracking bullet_text adjusted_links plain_text
  match element.overflow_behavior with
  | .wrapWithPageBreak => [.keepTogether flowable]
  | .noWrap =>
    if adjusted_links.isEmpty then [.para bullet_text]
    else [.tracking bullet_text adjusted_links plain_text]
  | .wrap => [flowable]

/-- `PageGenerator._build_section_heading` (and `_build_section_subheading`, which
is textually identical up to the style). -/
def build_section_heading (tf : TextFormatter) (text : String)
    (bold italic : Bool) : List Flowable :=
  let t := tf.format_text text true true true
  let t := if bold then "<b>" ++ t ++ "</b>" else t
  let t := if italic then "<i>" ++ t ++ "</i>" else t
  [.para t]

/-- `PageGenerator._build_content_element`. -/
def build_content_element (tf : TextFormatter) (lm : LinkManager) :
    ContentElement → List Flowable
  | .sectionHeading t b i => build_section_heading tf t b i
  | .sectionSubheading t b i => build_section_heading tf t b i
  | .bulletPoint bp => build_bullet_point tf lm bp
  | .indentedBulletPoint bp => build_bullet_point tf lm bp

/-- The anchor positions one flowable emits when drawn with geometry `g`
(non-tracking flowables record nothing; `KeepTogether` draws its inner flowable). -/
def Flowable.linkPositions (g : DrawGeom) : Flowable → List LinkPosition
  | .para _ => []
  | .spacer => []
  | .pageBreak => []
  | .tracking _ links plain_text => draw g links plain_text
  | .keepTogether inner => inner.linkPositions g

/-- All anchor positions a composed content element emits when its flowables are
drawn with geometry `g`. -/
def elementLinkPositions (tf : TextFormatter) (lm : LinkManager) (g : DrawGeom)
    (el : ContentElement) : List LinkPosition :=
  ((build_content_element tf lm el).map (Flowable.linkPositions g)).flatten

/-! ### Claims C2 and C7 -/

/-- Plain-text character count of one content item. -/
def itemPlainLen : ContentItem → Nat
  | .plain t => t.length
  | .linkItem t _ => t.length

/-- The link items of a content list together with the index of the item they
occupy in that list. -/
def linkItemsIdx : List ContentItem → List (Nat × String × Int)
  | [] => []
  | .plain _ :: rest => (linkItemsIdx rest).map fun x => (x.1 + 1, x.2)
  | .linkItem t p :: rest =>
    (0, t, p) :: ((linkItemsIdx rest).map fun x => (x.1 + 1, x.2))

/-- The link items (text, original target page) of a content list. -/
def linkItems (content : List ContentItem) : List (String × Int) :=
  content.filterMap fun item =>
    match item with
    | .plain _ => none
    | .linkItem t p => some (t, p)

/-- Sum of the plain lengths of the first `i` content items. -/
def sumTake (content : List ContentItem) (i : Nat) : Nat :=
  ((content.take i).map itemPlainLen).sum

theorem sumTake_zero (content : List ContentItem) : sumTake content 0 = 0 := rfl

theorem sumTake_succ_cons (it : ContentItem) (rest : List ContentItem) (i : Nat) :
    sumTake (it :: rest) (i + 1) = itemPlainLen it + sumTake rest i := by
  simp [sumTake]

theorem linkItemsIdx_proj (content : List ContentItem) :
    (linkItemsIdx content).map (fun x => x.2) = linkItems content := by
  induction content with
  | nil => rfl
  | cons item rest ih =>
    cases item with
    | plain t => simp [linkItemsIdx, linkItems, List.map_map] at ih ⊢; simpa using ih
    | linkItem t p =>
      simp [linkItemsIdx, linkItems, List.map_map] at ih ⊢; simpa using ih

/-- Characterisation of the links recorded by `_build_content_items`: one record per
link item, target adjusted by the current offset, character range starting at the
accumulated position plus the plain lengths of the preceding items plus two
characters per preceding separator. -/
theorem buildContentItemsAux_links (tf : TextFormatter) (lm : LinkManager) :
    ∀ (content : List ContentItem) (isFirst : Bool) (pos : Nat),
    (buildContentItemsAux tf lm content isFirst pos).2.1 =
      (linkItemsIdx content).map fun x =>
        { text := x.2.1
          target_page := x.2.2 + lm.prepended_page_count
          char_start := pos + sumTake content x.1 + 2 * x.1
            + (if isFirst then 0 else 2)
          char_end := pos + sumTake content x.1 + 2 * x.1
            + (if isFirst then 0 else 2) + x.2.1.length } := by
  have hsep : (", " : String).length = 2 := rfl
  have hemp : ("" : String).length = 0 := rfl
  intro content
  induction content with
  | nil => intro isFirst pos; rfl
  | cons item rest ih =>
    intro isFirst pos
    cases item with
    | plain t =>
      cases isFirst <;>
      · simp only [buildContentItemsAux, linkItemsIdx, List.map_map]
        rw [ih false]
        apply List.map_congr_left
        intro y _
        simp only [Function.comp_apply, LinkInfo.mk.injEq, sumTake_succ_cons,
          itemPlainLen, hsep, hemp, if_true, if_false, Bool.false_eq_true,
          ite_true, ite_false, true_and, and_true]
        omega
    | linkItem t p =>
      cases isFirst <;>
      · simp only [buildContentItemsAux, linkItemsIdx, List.map_map, List.map_cons,
          List.cons.injEq]
        rw [ih false]
        refine ⟨?_, ?_⟩
        · simp only [LinkManager.get_adjusted_page, LinkInfo.mk.injEq, sumTake_zero,
            hsep, hemp, Bool.false_eq_true, ite_true, ite_false, true_and,
            and_true]
          try omega
        · apply List.map_congr_left
          intro y _
          simp only [Function.comp_apply, LinkInfo.mk.injEq, sumTake_succ_cons,
            itemPlainLen, hsep, hemp, Bool.false_eq_true, ite_true, ite_false,
            true_and, and_true]
          omega

/-- The link items of a composed content element (headings contain none). -/
def elementLinkItems : ContentElement → List (String × Int)
  | .sectionHeading _ _ _ => []
  | .sectionSubheading _ _ _ => []
  | .bulletPoint bp => linkItems bp.content
  | .indentedBulletPoint bp => linkItems bp.content

/-- The bullet glyph, plain label text and trailing space that precede the content
items in the composed plain-text line. -/
def bulletPre (tf : TextFormatter) (bp : BulletData) : String :=
  "• " ++ strip_xml_tags tf bp.label ++ " "

/-- The plain-text line of a composed bullet. -/
def bulletPlainText (tf : TextFormatter) (lm : LinkManager) (bp : BulletData) :
    String :=
  bulletPre tf bp ++ (build_content_items tf lm bp.content).2.2

/-- Average character width as the spec states it: rendered paragraph width divided
by the plain-text character count, the divisor taken to be at least 1. -/
def specAvgCharWidth (tf : TextFormatter) (lm : LinkManager) (bp : BulletData)
    (g : DrawGeom) : ℚ :=
  g.width / (max (bulletPlainText tf lm bp).length 1 : ℚ)

/-- Whatever the overflow behaviour, drawing the flowables of a composed bullet
emits exactly the positions of `draw` applied to the prefix-adjusted links and the
bullet's plain-text line. -/
theorem bullet_linkPositions_eq_draw (tf : TextFormatter) (lm : LinkManager)
    (g : DrawGeom) (bp : BulletData) :
    elementLinkPositions tf lm g (.bulletPoint bp) =
      draw g
        ((build_content_items tf lm bp.content).2.1.map fun link =>
          { link with
            char_start := link.char_start + (bulletPre tf bp).length
            char_end := link.char_end + (bulletPre tf bp).length })
        (bulletPlainText tf lm bp) := by
  simp only [elementLinkPositions, build_content_element, build_bullet_point,
    bulletPre, bulletPlainText, build_content_items]
  rcases hL : (buildContentItemsAux tf lm bp.content true 0).2.1 with _ | ⟨l0, ls⟩ <;>
    cases bp.overflow_behavior <;>
      simp [Flowable.linkPositions, draw]

/-- C2: composing a specification element records exactly one anchor position per
LinkItem it contains: a content element with no LinkItems contributes zero entries
to the link-position list, and a bullet with k LinkItems contributes exactly k
entries, each whose target page equals the item's original targetPage plus the
current offset held by the Link Table. -/
theorem element_anchor_positions (tf : TextFormatter) (lm : LinkManager)
    (g : DrawGeom) (el : ContentElement) :
    (elementLinkPositions tf lm g el).length = (elementLinkItems el).length ∧
    (elementLinkPositions tf lm g el).map (fun lp => lp.target_page) =
      (elementLinkItems el).map (fun it => it.2 + lm.prepended_page_count) := by
  have key : ∀ bp : BulletData,
      (elementLinkPositions tf lm g (.bulletPoint bp)).length =
        (linkItems bp.content).length ∧
      (elementLinkPositions tf lm g (.bulletPoint bp)).map (fun lp => lp.target_page) =
        (linkItems bp.content).map (fun it => it.2 + lm.prepended_page_count) := by
    intro bp
    rw [bullet_linkPositions_eq_draw, build_content_items,
      buildContentItemsAux_links, ← linkItemsIdx_proj]
    rcases linkItemsIdx bp.content with _ | ⟨x0, xs⟩
    · exact ⟨rfl, rfl⟩
    · constructor
      · simp [draw]
      · simp only [draw, List.map_map, List.map_cons, List.isEmpty_cons,
          Bool.false_eq_true, if_false]
        rfl
  have keyI : ∀ bp : BulletData,
      elementLinkPositions tf lm g (.indentedBulletPoint bp) =
        elementLinkPositions tf lm g (.bulletPoint bp) := by
    intro bp
    rfl
  cases el with
  | sectionHeading t b i => exact ⟨rfl, rfl⟩
  | sectionSubheading t b i => exact ⟨rfl, rfl⟩
  | bulletPoint bp => exact key bp
  | indentedBulletPoint bp => rw [elementLinkItems, keyI bp]; exact key bp

/-- C7: every anchor recorded for a rendered bullet paragraph has its rectangle
estimated from the average character width — the paragraph's rendered width divided
by the plain-text character count, the divisor at least 1 — applied to the link's
character-offset range (which accounts for the bullet glyph, the label text and the
", " separators preceding the link's content item), the width clamped below to the
minimum clickable size 20. -/
theorem bullet_link_geometry (tf : TextFormatter) (lm : LinkManager)
    (g : DrawGeom) (bp : BulletData) :
    (elementLinkPositions tf lm g (.bulletPoint bp)).map (fun lp => (lp.x, lp.width)) =
      (linkItemsIdx bp.content).map fun x =>
        (g.x + (((bulletPre tf bp).length + sumTake bp.content x.1 + 2 * x.1 : Nat) : ℚ)
            * specAvgCharWidth tf lm bp g,
         max ((x.2.1.length : ℚ) * specAvgCharWidth tf lm bp g) 20) := by
  have hq : g.width /
      (max ((if (bulletPlainText tf lm bp).length = 0 then 1
        else (bulletPlainText tf lm bp).length : Nat) : ℚ) 1) =
      specAvgCharWidth tf lm bp g := by
    unfold specAvgCharWidth
    by_cases h : (bulletPlainText tf lm bp).length = 0 <;> simp [h]
  rw [bullet_linkPositions_eq_draw, build_content_items,
    buildContentItemsAux_links]
  rcases linkItemsIdx bp.content with _ | ⟨x0, xs⟩
  · rfl
  · simp only [draw, List.map_map, List.map_cons, List.isEmpty_cons,
      Bool.false_eq_true, if_false, if_true, Nat.zero_add, List.cons.injEq] at hq ⊢
    refine ⟨?_, ?_⟩
    · simp only [Prod.mk.injEq]
      rw [hq]
      refine ⟨by congr 1; push_cast; ring, ?_⟩
      congr 1
      push_cast
      ring
    · apply List.map_congr_left
      intro y _
      simp only [Function.comp_apply, Prod.mk.injEq]
      rw [hq]
      refine ⟨by congr 1; push_cast; ring, ?_⟩
      congr 1
      push_cast
      ring

/-! ### Whole-document generation (for the builder's two-pass protocol) -/

/-- `PageHeading` from the schema (font size and alignment only select a style). -/
structure PageHeading where
  text : String
  bold : Bool := false
  italic : Bool := false
deriving DecidableEq, Repr

/-- A `Page` of the specification. -/
structure Page where
  page_heading : Option PageHeading := none
  content : List ContentElement := []
deriving DecidableEq, Repr

/-- The `PrependSpecification`: its pages and the marker defaults the generator
hands to the `TextFormatter` (page size and margins only affect external layout). -/
structure PrependSpecification where
  pages : List Page
  bold_marker : String := "**"
  italic_marker : String := "_"
deriving DecidableEq, Repr

/-- `PageGenerator._build_page_heading`: an escaped, style-wrapped paragraph
followed by a spacer. -/
def build_page_heading (tf : TextFormatter) (h : PageHeading) : List Flowable :=
  [.para (tf.apply_style (tf.escape_xml h.text) h.bold h.italic), .spacer]

/-- `PageGenerator._build_page`. -/
def build_page (tf : TextFormatter) (lm : LinkManager) (page : Page)
    (is_first : Bool) : List Flowable :=
  (if is_first then [] else [.pageBreak])
    ++ (match page.page_heading with
        | some h => build_page_heading tf h
        | none => [])
    ++ (page.content.map (build_content_element tf lm)).flatten

/-- The external ReportLab layout engine: for a list of flowables it reports the
finished page count, and for each flowable the canvas geometry at which that
flowable is drawn during `doc.build`. -/
structure LayoutEngine where
  page_count : List Flowable → Nat
  geom : List Flowable → Nat → DrawGeom

/-- `PageGenerator.generate`: compose all pages with a formatter built from the
spec's markers, lay them out with the external engine, and collect the anchor
positions every flowable records when drawn.  The link manager is only read
(`get_adjusted_page` is pure), so it is not returned. -/
def generate (L : LayoutEngine) (spec : PrependSpecification) (lm : LinkManager) :
    Nat × List LinkPosition :=
  let tf : TextFormatter := { bold_marker := spec.bold_marker,
                              italic_marker := spec.italic_marker }
  let flowables :=
    (spec.pages.enum.map fun p => build_page tf lm p.2 (p.1 = 0)).flatten
  let link_positions :=
    (flowables.enum.map fun p => p.2.linkPositions (L.geom flowables p.1)).flatten
  (L.page_count flowables, link_positions)

end PageGen

/-! ### Decimal representation: injectivity of `Nat.repr`

The merge names destinations `f"page_{n}"`; distinct page numbers must give
distinct names, so we prove the decimal representation injective by exhibiting a
left inverse of the digit list. -/

/-- The digit characters `Nat.toDigitsCore` produces, most significant first,
defined without fuel. -/
def decChars (n : Nat) : List Char :=
  if _h : n < 10 then [Nat.digitChar n]
  else decChars (n / 10) ++ [Nat.digitChar (n % 10)]
decreasing_by exact Nat.div_lt_self (by omega) (by omega)

theorem toDigitsCore_eq_decChars (fuel : Nat) :
    ∀ (n : Nat) (ds : List Char), n < fuel →
      Nat.toDigitsCore 10 fuel n ds = decChars n ++ ds := by
  induction fuel with
  | zero => intro n ds h; omega
  | succ fuel ih =>
    intro n ds h
    by_cases h10 : n / 10 = 0
    · have hn : n < 10 := by omega
      simp only [Nat.toDigitsCore, if_pos h10]
      rw [decChars, dif_pos hn, Nat.mod_eq_of_lt hn]
      rfl
    · have hge : ¬ n < 10 := by omega
      have hlt : n / 10 < fuel := by omega
      simp only [Nat.toDigitsCore, if_neg h10]
      rw [ih _ _ hlt]
      conv_rhs => rw [decChars]
      rw [dif_neg hge]
      simp

theorem repr_eq_decChars (n : Nat) : Nat.repr n = (decChars n).asString := by
  unfold Nat.repr Nat.toDigits
  rw [toDigitsCore_eq_decChars (n + 1) n [] (by omega)]
  simp

/-- Value of a decimal digit character. -/
def charVal (c : Char) : Nat := c.toNat - 48

/-- Value of a digit string, most significant first. -/
def valOf (l : List Char) : Nat :=
  l.foldl (fun a c => a * 10 + charVal c) 0

theorem valOf_append_singleton (l : List Char) (c : Char) :
    valOf (l ++ [c]) = 10 * valOf l + charVal c := by
  simp [valOf, List.foldl_append, Nat.mul_comm]

theorem charVal_digitChar (n : Nat) (h : n < 10) :
    charVal (Nat.digitChar n) = n := by
  interval_cases n <;> decide

theorem valOf_decChars (n : Nat) : valOf (decChars n) = n := by
  induction n using Nat.strong_induction_on with
  | _ n ih =>
    by_cases h : n < 10
    · rw [decChars, dif_pos h]
      have hv := charVal_digitChar n h
      simp [valOf, hv]
    · rw [decChars, dif_neg h, valOf_append_singleton,
        ih (n / 10) (Nat.div_lt_self (by omega) (by omega)),
        charVal_digitChar (n % 10) (by omega)]
      omega

theorem repr_injective_nat (m n : Nat) (h : Nat.repr m = Nat.repr n) : m = n := by
  rw [repr_eq_decChars, repr_eq_decChars, List.asString_inj] at h
  calc m = valOf (decChars m) := (valOf_decChars m).symm
    _ = valOf (decChars n) := by rw [h]
    _ = n := valOf_decChars n

theorem page_name_injective (a b : Nat)
    (h : "page_" ++ toString a = "page_" ++ toString b) : a = b := by
  apply repr_injective_nat
  have hdata := congrArg String.data h
  simp only [String.data_append] at hdata
  have h2 := List.append_cancel_left hdata
  exact String.ext h2

/-! ### core/pdf_merger.py -/

/-- The pypdf `PdfWriter` as the merger drives it: `add_page` appends a page,
`add_named_destination` records a `(title, page_number)` pair, `add_annotation`
records a link annotation `(page_number, rect, target_page_index)`.  Pages are
abstract values of type `α`. -/
structure PdfWriter (α : Type) where
  pages : List α := []
  destinations : List (String × Nat) := []
  annotations : List (Nat × (ℚ × ℚ × ℚ × ℚ) × Nat) := []

/-- `writer.add_page(page)`. -/
def PdfWriter.add_page {α : Type} (w : PdfWriter α) (p : α) : PdfWriter α :=
  { w with pages := w.pages ++ [p] }

/-- `writer.add_named_destination(title, page_number)`. -/
def PdfWriter.add_named_destination {α : Type} (w : PdfWriter α) (title : String)
    (page_number : Nat) : PdfWriter α :=
  { w with destinations := w.destinations ++ [(title, page_number)] }

/-- One iteration of `PdfMerger._add_link_annotations`: skip when the page index
is past the end or the 0-based target is out of range, else record the
annotation rectangle (the `try` around insertion is modelled as success). -/
def annotateOneLink {α : Type} (w : PdfWriter α) (lp : PageGen.LinkPosition) :
    PdfWriter α :=
  let target_page_idx := lp.target_page - 1
  if lp.page_index ≥ (w.pages.length : Int) then w
  else if target_page_idx < 0 ∨ target_page_idx ≥ (w.pages.length : Int) then w
  else
    { w with
      annotations := w.annotations ++
        [(lp.page_index.toNat,
          (lp.x, lp.y, lp.x + lp.width, lp.y + lp.height), target_page_idx.toNat)] }

/-- `PdfMerger._add_link_annotations`. -/
def PdfWriter.add_link_annotations {α : Type} (w : PdfWriter α)
    (lps : List PageGen.LinkPosition) : PdfWriter α :=
  lps.foldl annotateOneLink w

/-- `PdfMerger.merge_with_destinations_and_links`: add the prepended pages, then
the original pages, create `page_{i+1}` destinations for every `i` below the total,
then add link annotations when a non-empty position list is supplied. -/
def merge_with_destinations_and_links {α : Type} (prepend_pages original_pages : List α)
    (link_positions : Option (List PageGen.LinkPosition)) : PdfWriter α :=
  let w : PdfWriter α := {}
  let w := prepend_pages.foldl PdfWriter.add_page w
  let w := original_pages.foldl PdfWriter.add_page w
  let total_pages := prepend_pages.length + original_pages.length
  let w := (List.range total_pages).foldl
    (fun acc i => acc.add_named_destination ("page_" ++ toString (i + 1)) i) w
  match link_positions with
  | none => w
  | some lps => if lps.isEmpty then w else w.add_link_annotations lps

theorem foldl_add_page {α : Type} (l : List α) :
    ∀ w : PdfWriter α, l.foldl PdfWriter.add_page w = { w with pages := w.pages ++ l } := by
  induction l with
  | nil => intro w; simp
  | cons a l ih =>
    intro w
    rw [List.foldl_cons, ih]
    simp [PdfWriter.add_page]

theorem foldl_add_named {α : Type} (f : Nat → String) (l : List Nat) :
    ∀ w : PdfWriter α,
      l.foldl (fun acc i => acc.add_named_destination (f i) i) w =
        { w with destinations := w.destinations ++ l.map (fun i => (f i, i)) } := by
  induction l with
  | nil => intro w; simp
  | cons a l ih =>
    intro w
    rw [List.foldl_cons, ih]
    simp [PdfWriter.add_named_destination]

theorem annotateOneLink_pages {α : Type} (w : PdfWriter α)
    (lp : PageGen.LinkPosition) : (annotateOneLink w lp).pages = w.pages := by
  simp only [annotateOneLink]
  split
  · rfl
  · split
    · rfl
    · rfl

theorem annotateOneLink_destinations {α : Type} (w : PdfWriter α)
    (lp : PageGen.LinkPosition) :
    (annotateOneLink w lp).destinations = w.destinations := by
  simp only [annotateOneLink]
  split
  · rfl
  · split
    · rfl
    · rfl

theorem add_link_annotations_pages {α : Type} (lps : List PageGen.LinkPosition) :
    ∀ w : PdfWriter α, (w.add_link_annotations lps).pages = w.pages := by
  induction lps with
  | nil => intro w; rfl
  | cons lp rest ih =>
    intro w
    show ((annotateOneLink w lp).add_link_annotations rest).pages = w.pages
    rw [ih, annotateOneLink_pages]

theorem add_link_annotations_destinations {α : Type}
    (lps : List PageGen.LinkPosition) :
    ∀ w : PdfWriter α, (w.add_link_annotations lps).destinations = w.destinations := by
  induction lps with
  | nil => intro w; rfl
  | cons lp rest ih =>
    intro w
    show ((annotateOneLink w lp).add_link_annotations rest).destinations
      = w.destinations
    rw [ih, annotateOneLink_destinations]

/-! ### Claim C3 -/

/-- C3: the merge produces the m prefix pages followed by the n original pages, and
registers, unconditionally, exactly one named destination `page_i` for every i in
[1, m+n] — the destination list is exactly `page_1 … page_{m+n}` in order, its names
contain no duplicates, and each `page_n` occurs exactly once. -/
theorem merge_with_destinations_spec {α : Type} (prepend_pages original_pages : List α)
    (link_positions : Option (List PageGen.LinkPosition)) :
    (merge_with_destinations_and_links prepend_pages original_pages link_positions).pages
        = prepend_pages ++ original_pages ∧
    (merge_with_destinations_and_links prepend_pages original_pages link_positions).destinations
        = (List.range (prepend_pages.length + original_pages.length)).map
            (fun i => ("page_" ++ toString (i + 1), i)) ∧
    ((merge_with_destinations_and_links prepend_pages original_pages
        link_positions).destinations.map Prod.fst).Nodup ∧
    ∀ n : Nat, 1 ≤ n → n ≤ prepend_pages.length + original_pages.length →
      ((merge_with_destinations_and_links prepend_pages original_pages
          link_positions).destinations.map Prod.fst).count
        ("page_" ++ toString n) = 1 := by
  have hinj : Function.Injective (fun i : Nat => "page_" ++ toString (i + 1)) := by
    intro a b hab
    have := page_name_injective (a + 1) (b + 1) hab
    omega
  have hw : ∀ (w : PdfWriter α),
      (match link_positions with
        | none => w
        | some lps => if lps.isEmpty then w else w.add_link_annotations lps).pages
          = w.pages ∧
      (match link_positions with
        | none => w
        | some lps => if lps.isEmpty then w else w.add_link_annotations lps).destinations
          = w.destinations := by
    intro w
    cases link_positions with
    | none => exact ⟨rfl, rfl⟩
    | some lps =>
      by_cases h : lps.isEmpty <;>
        simp [h, add_link_annotations_pages, add_link_annotations_destinations]
  have hpages :
      (merge_with_destinations_and_links prepend_pages original_pages
        link_positions).pages = prepend_pages ++ original_pages := by
    unfold merge_with_destinations_and_links
    rw [(hw _).1, foldl_add_named, foldl_add_page, foldl_add_page]
    simp [List.append_assoc]
  have hdest :
      (merge_with_destinations_and_links prepend_pages original_pages
        link_positions).destinations
        = (List.range (prepend_pages.length + original_pages.length)).map
            (fun i => ("page_" ++ toString (i + 1), i)) := by
    unfold merge_with_destinations_and_links
    rw [(hw _).2, foldl_add_named, foldl_add_page, foldl_add_page]
    simp
  have hnames :
      (merge_with_destinations_and_links prepend_pages original_pages
        link_positions).destinations.map Prod.fst
        = (List.range (prepend_pages.length + original_pages.length)).map
            (fun i => "page_" ++ toString (i + 1)) := by
    rw [hdest, List.map_map]
    rfl
  have hnodup :
      ((merge_with_destinations_and_links prepend_pages original_pages
        link_positions).destinations.map Prod.fst).Nodup := by
    rw [hnames]
    exact (List.nodup_range _).map hinj
  refine ⟨hpages, hdest, hnodup, ?_⟩
  intro n h1 h2
  apply List.count_eq_one_of_mem hnodup
  rw [hnames]
  refine List.mem_map.mpr ⟨n - 1, List.mem_range.mpr (by omega), ?_⟩
  have : n - 1 + 1 = n := by omega
  rw [this]

/-- Witness for C3 at a concrete merge of one prefix page and two original pages. -/
theorem merge_with_destinations_spec_witness :
    ((merge_with_destinations_and_links ["a"] ["b", "c"]
        none).destinations.map Prod.fst).count ("page_" ++ toString (2 : Nat)) = 1 :=
  (merge_with_destinations_spec ["a"] ["b", "c"] none).2.2.2 2 (by decide) (by decide)

/-! ### core/link_annotator.py

The text-search engine (PyMuPDF) is external: a `SearchEngine` supplies the page
count of the open document, each page's height, and the rectangles
`page.search_for(text)` returns.  None of these change when links are inserted. -/

namespace Annotator

/-- A PyMuPDF rectangle (origin top-left; `y1` is the bottom coordinate). -/
structure Rect where
  x0 : ℚ
  y0 : ℚ
  x1 : ℚ
  y1 : ℚ
deriving DecidableEq, Repr

/-- The fixed attributes PyMuPDF reports for the open document. -/
structure SearchEngine where
  page_count : Nat
  page_height : Nat → ℚ
  search_for : Nat → String → List Rect

/-- A goto link inserted by `page.insert_link`: page, rectangle, 0-based target. -/
structure InsertedLink where
  page : Nat
  rect : Rect
  target : Nat
deriving DecidableEq, Repr

/-- The document as the annotator mutates it: the links inserted so far. -/
structure DocState where
  inserted : List InsertedLink := []
deriving DecidableEq, Repr

/-- One iteration of the `best_rect`/`best_distance` loop of `_find_text_rect`:
replace the best on strictly smaller distance (`none` is the initial
`best_distance = inf`), so the first occurrence of the minimum wins. -/
def pickStep (estimated_y : ℚ) (best : Option (Rect × ℚ)) (r : Rect) :
    Option (Rect × ℚ) :=
  let distance := |r.y1 - estimated_y|
  match best with
  | none => some (r, distance)
  | some (br, bd) => if distance < bd then some (r, distance) else some (br, bd)

/-- The `best_rect`/`best_distance` loop of `_find_text_rect`. -/
def pickClosest (estimated_y : ℚ) (rects : List Rect) : Option Rect :=
  (rects.foldl (pickStep estimated_y) none).map Prod.fst

/-- `LinkAnnotator._find_text_rect`: nothing for empty text or no search hits, the
unique hit when there is exactly one, the loop's pick otherwise. -/
def find_text_rect (S : SearchEngine) (page : Nat) (lp : PageGen.LinkPosition) :
    Option Rect :=
  if lp.link_text = "" then none
  else
    match S.search_for page lp.link_text with
    | [] => none
    | [r] => some r
    | rects => pickClosest (S.page_height page - lp.y) rects

/-- `LinkAnnotator._get_estimated_rect`: the ReportLab-coordinate estimate
converted to PyMuPDF coordinates. -/
def get_estimated_rect (S : SearchEngine) (page : Nat)
    (lp : PageGen.LinkPosition) : Rect :=
  let page_height := S.page_height page
  { x0 := lp.x
    y0 := page_height - (lp.y + lp.height)
    x1 := lp.x + lp.width
    y1 := page_height - lp.y }

/-- The rectangle `_add_link` resolves: the text-search result, or the estimated
rectangle when the search yields nothing. -/
def resolved_rect (S : SearchEngine) (page : Nat) (lp : PageGen.LinkPosition) :
    Rect :=
  match find_text_rect S page lp with
  | some r => r
  | none => get_estimated_rect S page lp

/-- `LinkAnnotator._add_link`: validate both page indices, then insert a goto link
at the resolved rectangle (insertion is modelled as succeeding; the code swallows
engine-level insertion failures). -/
def add_link (S : SearchEngine) (doc : DocState) (lp : PageGen.LinkPosition) :
    DocState :=
  let page_idx := lp.page_index
  let target_page_idx := lp.target_page - 1
  if page_idx < 0 ∨ page_idx ≥ (S.page_count : Int) then doc
  else if target_page_idx < 0 ∨ target_page_idx ≥ (S.page_count : Int) then doc
  else
    { doc with
      inserted := doc.inserted ++
        [{ page := page_idx.toNat
           rect := resolved_rect S page_idx.toNat lp
           target := target_page_idx.toNat }] }

/-- The `add_links` loop over all anchor positions. -/
def add_links (S : SearchEngine) (doc : DocState)
    (lps : List PageGen.LinkPosition) : DocState :=
  lps.foldl (add_link S) doc

/-- An anchor the Link Binder's validation rejects: `page_index` outside
`[0, totalPages)` or `target_page - 1` outside `[0, totalPages)`. -/
def anchorOutOfRange (total : Nat) (lp : PageGen.LinkPosition) : Prop :=
  lp.page_index < 0 ∨ lp.page_index ≥ (total : Int) ∨
    lp.target_page - 1 < 0 ∨ lp.target_page - 1 ≥ (total : Int)

theorem add_link_skip (S : SearchEngine) (lp : PageGen.LinkPosition)
    (h : anchorOutOfRange S.page_count lp) :
    ∀ doc : DocState, add_link S doc lp = doc := by
  intro doc
  simp only [add_link]
  by_cases h1 : lp.page_index < 0 ∨ lp.page_index ≥ (S.page_count : Int)
  · rw [if_pos h1]
  · have h2 : lp.target_page - 1 < 0 ∨ lp.target_page - 1 ≥ (S.page_count : Int) := by
      rcases h with h | h | h | h
      · exact absurd (Or.inl h) h1
      · exact absurd (Or.inr h) h1
      · exact Or.inl h
      · exact Or.inr h
    rw [if_neg h1, if_pos h2]

/-! ### Claim C5 -/

/-- C5: an anchor whose `pageIndex` or whose `targetPage - 1` is out of
`[0, totalPages)` is skipped silently — the Link Binder attaches no link for it and
the remaining anchors are processed exactly as if it were absent — while an anchor
with both indices in range is not skipped by this validation: it attaches exactly
one link. -/
theorem add_link_validation (S : SearchEngine) (doc : DocState)
    (pre post : List PageGen.LinkPosition) (lp : PageGen.LinkPosition) :
    (anchorOutOfRange S.page_count lp →
      add_links S doc (pre ++ lp :: post) = add_links S doc (pre ++ post)) ∧
    (¬ anchorOutOfRange S.page_count lp →
      (add_link S doc lp).inserted.length = doc.inserted.length + 1) := by
  constructor
  · intro h
    unfold add_links
    rw [List.foldl_append, List.foldl_append, List.foldl_cons, add_link_skip S lp h]
  · intro h
    simp only [anchorOutOfRange, not_or] at h
    obtain ⟨h1, h2, h3, h4⟩ := h
    simp only [add_link]
    rw [if_neg (not_or.mpr ⟨h1, h2⟩), if_neg (not_or.mpr ⟨h3, h4⟩)]
    simp

/-- A two-page document whose searches find nothing. -/
def twoPageEngine : SearchEngine where
  page_count := 2
  page_height := fun _ => 100
  search_for := fun _ _ => []

/-- An anchor whose page index 5 is out of range for a two-page document. -/
def anchorBad : PageGen.LinkPosition where
  page_index := 5
  target_page := 1
  link_text := "x"
  x := 0
  y := 0
  width := 1
  height := 1

/-- An anchor with both indices in range for a two-page document. -/
def anchorGood : PageGen.LinkPosition where
  page_index := 0
  target_page := 1
  link_text := "x"
  x := 0
  y := 0
  width := 1
  height := 1

/-- Witness for C5: a 2-page document, one out-of-range anchor (page index 5) that
leaves the document unchanged, and one in-range anchor that inserts one link. -/
theorem add_link_validation_witness :
    add_links twoPageEngine {} ([] ++ anchorBad :: []) =
      add_links twoPageEngine {} ([] ++ []) ∧
    (add_link twoPageEngine {} anchorGood).inserted.length =
      ({} : DocState).inserted.length + 1 :=
  ⟨(add_link_validation twoPageEngine {} [] [] anchorBad).1
      (Or.inr (Or.inl (by decide))),
   (add_link_validation twoPageEngine {} [] [] anchorGood).2
      (by simp only [anchorOutOfRange, not_or]; refine ⟨?_, ?_, ?_, ?_⟩ <;> decide)⟩

/-! ### Claim C6 -/

/-- Modelled from the spec's words: the occurrence whose vertical position is
closest to the estimated y-coordinate, ties broken by the occurrence found
first. -/
def firstClosest (estimated_y : ℚ) : List Rect → Option Rect
  | [] => none
  | r :: rs =>
    match firstClosest estimated_y rs with
    | none => some r
    | some b =>
      if |r.y1 - estimated_y| ≤ |b.y1 - estimated_y| then some r else some b

theorem firstClosest_swap (est : ℚ) (br r : Rect) (rs : List Rect) :
    firstClosest est (br :: r :: rs) =
      if |r.y1 - est| < |br.y1 - est| then firstClosest est (r :: rs)
      else firstClosest est (br :: rs) := by
  have uc : ∀ (x : Rect) (l : List Rect), firstClosest est (x :: l) =
      match firstClosest est l with
      | none => some x
      | some b => if |x.y1 - est| ≤ |b.y1 - est| then some x else some b :=
    fun x l => rfl
  rcases hm : firstClosest est rs with _ | b
  · rw [uc br (r :: rs), uc r rs, uc br rs, hm]
    dsimp only
    by_cases h2 : |r.y1 - est| < |br.y1 - est|
    · rw [if_pos h2, if_neg (show ¬ |br.y1 - est| ≤ |r.y1 - est| by linarith)]
    · rw [if_neg h2, if_pos (show |br.y1 - est| ≤ |r.y1 - est| by linarith)]
  · rw [uc br (r :: rs), uc r rs, uc br rs, hm]
    dsimp only
    by_cases h1 : |r.y1 - est| ≤ |b.y1 - est|
    · rw [if_pos h1]
      dsimp only
      by_cases h2 : |r.y1 - est| < |br.y1 - est|
      · rw [if_pos h2, if_neg (show ¬ |br.y1 - est| ≤ |r.y1 - est| by linarith)]
      · rw [if_neg h2, if_pos (show |br.y1 - est| ≤ |r.y1 - est| by linarith),
          if_pos (show |br.y1 - est| ≤ |b.y1 - est| by linarith)]
    · rw [if_neg h1]
      dsimp only
      by_cases h2 : |r.y1 - est| < |br.y1 - est|
      · rw [if_pos h2, if_neg (show ¬ |br.y1 - est| ≤ |b.y1 - est| by linarith)]
      · rw [if_neg h2]

theorem pickStep_some (est : ℚ) (br : Rect) (bd : ℚ) (r : Rect) :
    pickStep est (some (br, bd)) r =
      if |r.y1 - est| < bd then some (r, |r.y1 - est|) else some (br, bd) := rfl

theorem pickClosest_loop (est : ℚ) : ∀ (rs : List Rect) (br : Rect),
    (rs.foldl (pickStep est) (some (br, |br.y1 - est|))).map Prod.fst =
      firstClosest est (br :: rs) := by
  intro rs
  induction rs with
  | nil => intro br; rfl
  | cons r rs ih =>
    intro br
    rw [List.foldl_cons, pickStep_some, firstClosest_swap]
    by_cases hc : |r.y1 - est| < |br.y1 - est|
    · rw [if_pos hc, if_pos hc]
      exact ih r
    · rw [if_neg hc, if_neg hc]
      exact ih br

theorem pickClosest_eq_firstClosest (est : ℚ) (rects : List Rect) :
    pickClosest est rects = firstClosest est rects := by
  cases rects with
  | nil => rfl
  | cons r rs =>
    unfold pickClosest
    rw [List.foldl_cons]
    have h0 : pickStep est none r = some (r, |r.y1 - est|) := rfl
    rw [h0]
    exact pickClosest_loop est rs r

/-- `firstClosest` returns the element at the least index attaining the minimal
vertical distance: no element is strictly closer, and every earlier element is
strictly farther. -/
theorem firstClosest_is_first_min (est : ℚ) : ∀ (rs : List Rect), rs ≠ [] →
    ∃ i, ∃ hi : i < rs.length,
      firstClosest est rs = some (rs.get ⟨i, hi⟩) ∧
      (∀ j, ∀ hj : j < rs.length,
        |(rs.get ⟨i, hi⟩).y1 - est| ≤ |(rs.get ⟨j, hj⟩).y1 - est|) ∧
      (∀ j, ∀ hj : j < rs.length, j < i →
        |(rs.get ⟨i, hi⟩).y1 - est| < |(rs.get ⟨j, hj⟩).y1 - est|) := by
  have uc : ∀ (x : Rect) (l : List Rect), firstClosest est (x :: l) =
      match firstClosest est l with
      | none => some x
      | some b => if |x.y1 - est| ≤ |b.y1 - est| then some x else some b :=
    fun x l => rfl
  intro rs
  induction rs with
  | nil => intro h; exact absurd rfl h
  | cons r rs ih =>
    intro _
    cases hrs : rs with
    | nil =>
      subst hrs
      refine ⟨0, by simp, ?_, ?_, ?_⟩
      · simp [firstClosest]
      · intro j hj
        have hj0 : j = 0 := by simp at hj; omega
        subst hj0
        simp
      · intro j hj hlt
        omega
    | cons r0 rs0 =>
      subst hrs
      obtain ⟨i, hi, heq, hmin, hfirst⟩ := ih (by simp)
      by_cases hc : |r.y1 - est| ≤ |((r0 :: rs0).get ⟨i, hi⟩).y1 - est|
      · refine ⟨0, by simp, ?_, ?_, ?_⟩
        · rw [uc r (r0 :: rs0), heq]
          dsimp only
          rw [if_pos hc]
          rfl
        · intro j hj
          cases j with
          | zero => simp
          | succ j =>
            have hj2 : j < (r0 :: rs0).length := by simpa using hj
            show |r.y1 - est| ≤ |((r0 :: rs0).get ⟨j, hj2⟩).y1 - est|
            exact le_trans hc (hmin j hj2)
        · intro j hj hlt
          omega
      · push_neg at hc
        refine ⟨i + 1, by simpa using Nat.succ_lt_succ hi, ?_, ?_, ?_⟩
        · rw [uc r (r0 :: rs0), heq]
          dsimp only
          rw [if_neg (not_le.mpr hc)]
          rfl
        · intro j hj
          cases j with
          | zero =>
            show |((r0 :: rs0).get ⟨i, hi⟩).y1 - est| ≤ |r.y1 - est|
            exact le_of_lt hc
          | succ j =>
            have hj2 : j < (r0 :: rs0).length := by simpa using hj
            show |((r0 :: rs0).get ⟨i, hi⟩).y1 - est| ≤
              |((r0 :: rs0).get ⟨j, hj2⟩).y1 - est|
            exact hmin j hj2
        · intro j hj hlt
          cases j with
          | zero =>
            show |((r0 :: rs0).get ⟨i, hi⟩).y1 - est| < |r.y1 - est|
            exact hc
          | succ j =>
            have hj2 : j < (r0 :: rs0).length := by simpa using hj
            show |((r0 :: rs0).get ⟨i, hi⟩).y1 - est| <
              |((r0 :: rs0).get ⟨j, hj2⟩).y1 - est|
            exact hfirst j hj2 (by omega)

/-- C6: the Link Binder resolves each anchor's rectangle as follows — zero search
matches: the estimated rectangle; exactly one match: that match exactly; several
matches: the occurrence whose vertical position is closest to the estimated
y-coordinate, and on a tie in vertical distance the occurrence found first. -/
theorem find_text_rect_resolution (S : SearchEngine) (page : Nat)
    (lp : PageGen.LinkPosition) (h : lp.link_text ≠ "") :
    (S.search_for page lp.link_text = [] →
      resolved_rect S page lp = get_estimated_rect S page lp) ∧
    (∀ r, S.search_for page lp.link_text = [r] →
      resolved_rect S page lp = r) ∧
    (2 ≤ (S.search_for page lp.link_text).length →
      ∃ i, ∃ hi : i < (S.search_for page lp.link_text).length,
        resolved_rect S page lp = (S.search_for page lp.link_text).get ⟨i, hi⟩ ∧
        (∀ j, ∀ hj : j < (S.search_for page lp.link_text).length,
          |((S.search_for page lp.link_text).get ⟨i, hi⟩).y1
              - (S.page_height page - lp.y)| ≤
            |((S.search_for page lp.link_text).get ⟨j, hj⟩).y1
              - (S.page_height page - lp.y)|) ∧
        (∀ j, ∀ hj : j < (S.search_for page lp.link_text).length, j < i →
          |((S.search_for page lp.link_text).get ⟨i, hi⟩).y1
              - (S.page_height page - lp.y)| <
            |((S.search_for page lp.link_text).get ⟨j, hj⟩).y1
              - (S.page_height page - lp.y)|)) := by
  refine ⟨?_, ?_, ?_⟩
  · intro hz
    simp [resolved_rect, find_text_rect, h, hz]
  · intro r hr
    simp [resolved_rect, find_text_rect, h, hr]
  · intro hlen
    rcases hres : S.search_for page lp.link_text with _ | ⟨a, _ | ⟨b, rest⟩⟩
    · rw [hres] at hlen; simp at hlen
    · rw [hres] at hlen; simp at hlen
    · have hne : (a :: b :: rest) ≠ [] := by simp
      obtain ⟨i, hi, heq, hmin, hfirst⟩ :=
        firstClosest_is_first_min (S.page_height page - lp.y) (a :: b :: rest) hne
      have hf : find_text_rect S page lp = some ((a :: b :: rest).get ⟨i, hi⟩) := by
        unfold find_text_rect
        rw [if_neg h, hres]
        dsimp only
        rw [pickClosest_eq_firstClosest]
        exact heq
      refine ⟨i, hi, ?_, ?_, ?_⟩
      · simp only [resolved_rect, hf]
      · intro j hj
        exact hmin j hj
      · intro j hj hlt
        exact hfirst j hj hlt

/-- A one-page document whose searches find nothing. -/
def onePageEngine : SearchEngine where
  page_count := 1
  page_height := fun _ => 100
  search_for := fun _ _ => []

/-- An anchor for the one-page document. -/
def anchorNoHit : PageGen.LinkPosition where
  page_index := 0
  target_page := 1
  link_text := "x"
  x := 3
  y := 4
  width := 5
  height := 6

/-- Witness for C6: a document whose search yields no match, so the estimated
rectangle is used. -/
theorem find_text_rect_resolution_witness :
    resolved_rect onePageEngine 0 anchorNoHit =
      get_estimated_rect onePageEngine 0 anchorNoHit :=
  (find_text_rect_resolution onePageEngine 0 anchorNoHit (by decide)).1 rfl

end Annotator

/-! ### core/document_builder.py -/

/-- `DocumentBuilder`: the specification plus the builder's own link manager
(created in `__init__` and mutated by `build`). -/
structure DocumentBuilder where
  spec : PageGen.PrependSpecification
  link_manager : LinkManager := {}

/-- `DocumentBuilder.get_prepend_page_count`: runs only the counting pass,
constructing `PageGenerator(self.spec, LinkManager())` — a throwaway default link
manager, not the builder's own — and returns the page count together with the
builder state. -/
def DocumentBuilder.get_prepend_page_count (L : PageGen.LayoutEngine)
    (b : DocumentBuilder) : Nat × DocumentBuilder :=
  let r := PageGen.generate L b.spec {}
  (r.1, b)

/-! ### Claim C9 -/

/-- C9: `get_prepend_page_count` performs only the counting pass with a throwaway
Link Table: for every builder and layout engine, the builder's own link manager is
unchanged by the call — its offset and its registered records are identical before
and after, and so is the whole builder state. -/
theorem get_prepend_page_count_frame (L : PageGen.LayoutEngine)
    (b : DocumentBuilder) :
    (DocumentBuilder.get_prepend_page_count L b).2.link_manager.prepended_page_count
        = b.link_manager.prepended_page_count ∧
    (DocumentBuilder.get_prepend_page_count L b).2.link_manager.links
        = b.link_manager.links ∧
    (DocumentBuilder.get_prepend_page_count L b).2 = b :=
  ⟨rfl, rfl, rfl⟩

end PdfPrepender
